import Mathlib

/-!
Verification of the vanity-plate monitor core (registry, normalization, key
derivation, store operations and the refresh scheduler) against its
natural-language specification.

The embedding follows `src/vanity-monitor/app.js` (the variant with the
jurisdiction/`state` field; `src/unnamed/part_000` is an earlier Idaho-only
variant of the same functions).  JavaScript objects become Lean structures;
a field that may be absent (or `null`/`undefined`) is an `Option`, since
`{...old, ...entry}` spreads and `x || default` only distinguish
present-and-truthy values.  `localStorage` becomes explicit state passing:
each store operation takes the loaded list and returns the list that
`savePlates` persists.  Timestamp strings are embedded by their parse
result (`new Date(s)` either yields a calendar date or an invalid date),
since the JS date parser itself is an engine primitive.
-/

namespace VanityMonitor

/-- Calendar fields observable through `getFullYear`/`getMonth`/`getDate`
on a successfully parsed `Date` (month is 0-based, as in JS). -/
structure JsDate where
  year : Nat
  month : Nat
  day : Nat
deriving DecidableEq, Repr

/-- Result of `new Date(raw)` on a stored timestamp string: either an
invalid date (`Number.isNaN(d.getTime())`) or a calendar date. -/
inductive Timestamp where
  | invalid (raw : String)
  | valid (d : JsDate)
deriving DecidableEq, Repr

/-- One element of a record's `history` array: `{status, checkedUtc, note?}`. -/
structure HistoryEntry where
  status : String
  checkedUtc : Timestamp
  note : Option String
deriving DecidableEq, Repr

/-- A stored plate record.  Every field can be absent in legacy or imported
data, so all are `Option`s; `none` covers JS `undefined` and `null`. -/
structure PlateRecord where
  plateText : Option String
  state : Option String
  selectedVehicleType : Option String
  selectedKindOfPlate : Option String
  selectedPlateProgram : Option String
  selectedPlateProgramID : Option String
  selectedPlateProgramSubCategory : Option String
  lastStatus : Option String
  lastCheckedUtc : Option Timestamp
  history : Option (List HistoryEntry)
deriving DecidableEq, Repr

/-- JS `x || d` for a possibly absent string field: the default is taken
when the field is absent, `null`, or the empty string (all falsy). -/
def jsOr (x : Option String) (d : String) : String :=
  match x with
  | some s => if s = "" then d else s
  | none => d

/-- JS `if (note) e.note = note`: an absent or empty note is dropped. -/
def jsNote (n : Option String) : Option String :=
  match n with
  | some s => if s = "" then none else some s
  | none => none

/-- JS `toUpperCase`, characterwise (the plate fields hold basic-latin
text, where JS and `Char.toUpper` agree). -/
def jsToUpper (s : String) : String := String.mk (s.data.map Char.toUpper)

/-- JS `toLowerCase` (used to embed case-insensitive comparison),
characterwise. -/
def jsToLower (s : String) : String := String.mk (s.data.map Char.toLower)

/-- `replace(/O/g,'0')`, characterwise. -/
def oRep (c : Char) : Char :=
  if c = 'O' then '0' else c

/-- The character class kept by `replace(/[^A-Z0-9]/g,'')`. -/
def isPlateChar (c : Char) : Bool :=
  (decide ('A' ≤ c) && decide (c ≤ 'Z')) || (decide ('0' ≤ c) && decide (c ≤ '9'))

/-- `normalizePlateText`:
`String(s||"").toUpperCase().replace(/O/g,'0').replace(/[^A-Z0-9]/g,'').slice(0,7)`. -/
def normalizePlateText (s : String) : String :=
  String.mk ((((s.data.map Char.toUpper).map oRep).filter isPlateChar).take 7)

/-- The seven components of `mkKey`, in source order (plate text, state,
then the five facets, each with its `||` default). -/
def keyParts (p : PlateRecord) : List String :=
  [ jsToUpper (jsOr p.plateText "")
  , jsOr p.state "ID"
  , jsOr p.selectedVehicleType "PassengerVehicle"
  , jsOr p.selectedKindOfPlate "Personalized"
  , jsOr p.selectedPlateProgram "Select"
  , jsOr p.selectedPlateProgramID ""
  , jsOr p.selectedPlateProgramSubCategory "Select" ]

/-- `mkKey(p)`: the components joined with `"|"`. -/
def mkKey (p : PlateRecord) : String :=
  String.intercalate "|" (keyParts p)

/-- The spread merge `{...old, ...entry}`: a field present on `entry`
overwrites, an absent one keeps `old`'s value. -/
def mergePlate (old entry : PlateRecord) : PlateRecord where
  plateText := entry.plateText <|> old.plateText
  state := entry.state <|> old.state
  selectedVehicleType := entry.selectedVehicleType <|> old.selectedVehicleType
  selectedKindOfPlate := entry.selectedKindOfPlate <|> old.selectedKindOfPlate
  selectedPlateProgram := entry.selectedPlateProgram <|> old.selectedPlateProgram
  selectedPlateProgramID := entry.selectedPlateProgramID <|> old.selectedPlateProgramID
  selectedPlateProgramSubCategory :=
    entry.selectedPlateProgramSubCategory <|> old.selectedPlateProgramSubCategory
  lastStatus := entry.lastStatus <|> old.lastStatus
  lastCheckedUtc := entry.lastCheckedUtc <|> old.lastCheckedUtc
  history := entry.history <|> old.history

/-- Lexicographic comparison of character lists (how two JS strings
compare under the collation used here). -/
def charListLe : List Char → List Char → Bool
  | [], _ => true
  | _ :: _, [] => false
  | a :: as, b :: bs => if a < b then true else if b < a then false else charListLe as bs

/-- The comparator of `savePlates`:
`(a.plateText||"").localeCompare(b.plateText||"","en",{sensitivity:"base"})`.
Base sensitivity on the plate alphabet `[A-Z0-9]` is case-insensitive
comparison, embedded as lexicographic order on the lowercased text. -/
def plateLe (a b : PlateRecord) : Bool :=
  charListLe (jsToLower (jsOr a.plateText "")).data (jsToLower (jsOr b.plateText "")).data

/-- `savePlates`: sorts by the comparator and persists; the returned list
is the persisted collection.  JS `Array.prototype.sort` is stable, as is
`List.mergeSort`. -/
def savePlates (arr : List PlateRecord) : List PlateRecord :=
  arr.mergeSort plateLe

/-- `findIndex`-and-replace core of `upsertPlate`: the first record whose
key equals the entry's key is replaced by the spread merge, otherwise the
entry is pushed at the end. -/
def upsertAux (entry : PlateRecord) : List PlateRecord → List PlateRecord
  | [] => [entry]
  | p :: rest =>
    if mkKey p = mkKey entry then mergePlate p entry :: rest
    else p :: upsertAux entry rest

/-- `upsertPlate(entry)` on a loaded list: merge-or-push, then `savePlates`. -/
def upsertPlate (list : List PlateRecord) (entry : PlateRecord) : List PlateRecord :=
  savePlates (upsertAux entry list)

/-- `deleteByKey(key)` on a loaded list: filter out the key, then `savePlates`. -/
def deleteByKey (list : List PlateRecord) (key : String) : List PlateRecord :=
  savePlates (list.filter (fun p => decide (mkKey p ≠ key)))

/-- What `localStorage.getItem(STORAGE_KEY)` plus `JSON.parse` can yield:
no stored value, an empty (falsy) string, a string `JSON.parse` throws on,
a decodable non-array, or a decodable record array. -/
inductive StoredPayload where
  | missing
  | emptyStr
  | malformed (raw : String)
  | nonArray
  | arrayVal (records : List PlateRecord)

/-- `loadPlates()`: `if(!raw) return []`, `catch { return [] }`,
`Array.isArray(arr) ? arr : []`. -/
def loadPlates : StoredPayload → List PlateRecord
  | .missing => []
  | .emptyStr => []
  | .malformed _ => []
  | .nonArray => []
  | .arrayVal l => l

/-- `isDue(p)`: due when never checked, when the stored timestamp parses
to an invalid date, or when the current month or year differs from the
last check's (the `now` argument is the current date). -/
def isDue (now : JsDate) (p : PlateRecord) : Bool :=
  match p.lastCheckedUtc with
  | none => true
  | some (.invalid _) => true
  | some (.valid last) => decide (last.month ≠ now.month) || decide (last.year ≠ now.year)

/-- `markChecked(p, status, note)` with `ts = new Date().toISOString()`:
sets the summary fields and appends one history entry (`p.history||[]`). -/
def markChecked (p : PlateRecord) (status : String) (note : Option String)
    (ts : JsDate) : PlateRecord :=
  { p with
    lastStatus := some status
    lastCheckedUtc := some (.valid ts)
    history := some ((p.history.getD []) ++
      [{ status := status, checkedUtc := .valid ts, note := jsNote note }]) }

/-- `validatePlateText(s)`: throws on empty normalization, else returns
the normalized text. -/
def validatePlateText (s : String) : Except String String :=
  let t := normalizePlateText s
  if t = "" then .error "plateText must be 1–7 letters/numbers" else .ok t

/-- `checkAvailability(p)` routed through a remote oracle: both the Idaho
and California strategies map the decoded boolean `Available` field to a
status, and surface every failure as an error message
(`String(e?.message||e)`). -/
def checkAvailability (remote : PlateRecord → Except String Bool)
    (p : PlateRecord) : Except String String :=
  match remote p with
  | .ok a => .ok (if a then "Available" else "Unavailable")
  | .error m => .error m

/-- One iteration body of the refresh loop: `try { markChecked(p, status) }
catch (e) { markChecked(p, "Error", String(e?.message||e)) }`. -/
def processOne (remote : PlateRecord → Except String Bool) (clock : Nat → JsDate)
    (j : Nat) (p : PlateRecord) : PlateRecord :=
  match checkAvailability remote p with
  | .ok status => markChecked p status none (clock j)
  | .error m => markChecked p "Error" (some m) (clock j)

/-- The `for (const p of targets)` loop of `refreshDue` in forced mode,
where `targets === all`: `for...of` reads the array by index, and
`savePlates(all)` re-sorts the same array in place after each record, so
each step processes the current element at the cursor, replaces it, sorts,
and records the persisted snapshot and the `i/targets.length` progress
report.  `fuel` bounds the cursor sweep (the length never changes). -/
def refreshLoopAux (remote : PlateRecord → Except String Bool) (clock : Nat → JsDate)
    (total : Nat) :
    Nat → Nat → List PlateRecord →
      List PlateRecord × List (List PlateRecord) × List (Nat × Nat)
  | 0, _, arr => (arr, [], [])
  | fuel + 1, j, arr =>
    if h : j < arr.length then
      let p' := processOne remote clock j (arr.get ⟨j, h⟩)
      let arr2 := savePlates (arr.set j p')
      let rest := refreshLoopAux remote clock total fuel (j + 1) arr2
      (rest.1, arr2 :: rest.2.1, (j + 1, total) :: rest.2.2)
    else (arr, [], [])

/-- `refreshDue({force:true})` over the loaded collection: returns the
final collection, the per-record persisted snapshots, and the in-loop
progress reports.  An empty selection completes immediately with no
persist and no progress report. -/
def refreshDueForce (remote : PlateRecord → Except String Bool)
    (clock : Nat → JsDate) (all : List PlateRecord) :
    List PlateRecord × List (List PlateRecord) × List (Nat × Nat) :=
  if all.isEmpty then (all, [], [])
  else refreshLoopAux remote clock all.length all.length 0 all

/-- The `#m_submit` handler on a loaded store: validation failure surfaces
the message and touches nothing; otherwise the new entry is built with the
documented defaults, checked once (failure tolerated), and upserted. -/
def submitPlate (store : List PlateRecord) (raw stateSel : String)
    (remote : PlateRecord → Except String Bool) (ts : JsDate) :
    List PlateRecord × String :=
  match validatePlateText raw with
  | .error m => (store, "Error: " ++ m)
  | .ok t =>
    let entry : PlateRecord :=
      { plateText := some t
        state := some (if stateSel = "" then "ID" else stateSel)
        selectedVehicleType := some "PassengerVehicle"
        selectedKindOfPlate := some "Personalized"
        selectedPlateProgram := some "Select"
        selectedPlateProgramID := some ""
        selectedPlateProgramSubCategory := some "Select"
        lastStatus := some "Unknown"
        lastCheckedUtc := none
        history := some [] }
    match checkAvailability remote entry with
    | .ok status => (upsertPlate store (markChecked entry status none ts), "Saved.")
    | .error m =>
      (upsertPlate store (markChecked entry "Error" (some m) ts), "Saved (check failed).")

/-! ### Helper lemmas -/

theorem toUpper_of_isPlateChar {c : Char} (h : isPlateChar c = true) :
    c.toUpper = c := by
  simp [isPlateChar, Char.le_def, UInt32.le_def, BitVec.le_def] at h
  simp [Char.toUpper, Char.toNat, UInt32.toNat]
  intro h1 h2
  exfalso
  rcases h with ⟨h3, h4⟩ | ⟨h3, h4⟩ <;> omega

theorem oRep_ne_O (c : Char) : oRep c ≠ 'O' := by
  simp only [oRep]
  split
  · decide
  · assumption

theorem oRep_of_ne {c : Char} (h : c ≠ 'O') : oRep c = c := by
  simp [oRep, h]

theorem mem_normalize {s : String} {c : Char}
    (h : c ∈ (normalizePlateText s).data) : isPlateChar c = true ∧ c ≠ 'O' := by
  simp only [normalizePlateText] at h
  have h1 := List.mem_of_mem_take h
  rw [List.mem_filter] at h1
  refine ⟨h1.2, ?_⟩
  rcases List.mem_map.mp h1.1 with ⟨x, _, hx⟩
  rw [← hx]; exact oRep_ne_O x

theorem normalize_length {s : String} : (normalizePlateText s).length ≤ 7 := by
  simp only [normalizePlateText, String.length]
  calc (((((s.data.map Char.toUpper).map oRep).filter isPlateChar).take 7)).length
      ≤ 7 := by simp [List.length_take]

theorem normalize_idempotent (s : String) :
    normalizePlateText (normalizePlateText s) = normalizePlateText s := by
  have hmem := @mem_normalize s
  set t := (normalizePlateText s).data with ht
  have h1 : t.map Char.toUpper = t :=
    List.map_congr_left (fun a ha => toUpper_of_isPlateChar (hmem ha).1) |>.trans (List.map_id t)
  have h2 : t.map oRep = t :=
    List.map_congr_left (fun a ha => oRep_of_ne (hmem ha).2) |>.trans (List.map_id t)
  have h3 : t.filter isPlateChar = t :=
    List.filter_eq_self.mpr (fun a ha => (hmem ha).1)
  have h4 : t.take 7 = t := by
    apply List.take_of_length_le
    have := @normalize_length s
    simpa [String.length, ← ht] using this
  conv_lhs => rw [normalizePlateText]
  rw [show (normalizePlateText s).data = t from rfl, h1, h2, h3, h4]

theorem pipe_split {x y u v : List Char} (hx : '|' ∉ x) (hy : '|' ∉ y)
    (h : x ++ '|' :: u = y ++ '|' :: v) : x = y ∧ u = v := by
  induction x generalizing y with
  | nil =>
    cases y with
    | nil => simpa using h
    | cons b ys =>
      simp only [List.nil_append, List.cons_append, List.cons.injEq] at h
      obtain ⟨h1, h2⟩ := h
      subst h1
      simp at hy
  | cons a xs ih =>
    cases y with
    | nil =>
      simp only [List.nil_append, List.cons_append, List.cons.injEq] at h
      obtain ⟨h1, h2⟩ := h
      rw [← h1] at hx
      simp at hx
    | cons b ys =>
      simp only [List.cons_append, List.cons.injEq] at h
      obtain ⟨rfl, h2⟩ := h
      have hx' : '|' ∉ xs := fun hm => hx (List.mem_cons_of_mem _ hm)
      have hy' : '|' ∉ ys := fun hm => hy (List.mem_cons_of_mem _ hm)
      obtain ⟨h3, h4⟩ := ih hx' hy' h2
      exact ⟨by rw [h3], h4⟩

theorem str_ext {s t : String} (h : s.data = t.data) : s = t := by
  cases s; cases t; exact congrArg String.mk h

theorem intercalate7_data (s1 s2 s3 s4 s5 s6 s7 : String) :
    (String.intercalate "|" [s1, s2, s3, s4, s5, s6, s7]).data =
      s1.data ++ '|' :: (s2.data ++ '|' :: (s3.data ++ '|' :: (s4.data ++ '|' ::
        (s5.data ++ '|' :: (s6.data ++ '|' :: s7.data))))) := by
  simp [String.intercalate, String.intercalate.go]

theorem join7_count (a1 a2 a3 a4 a5 a6 a7 : List Char) :
    List.count '|' (a1 ++ '|' :: (a2 ++ '|' :: (a3 ++ '|' :: (a4 ++ '|' ::
      (a5 ++ '|' :: (a6 ++ '|' :: a7)))))) =
    List.count '|' a1 + List.count '|' a2 + List.count '|' a3 + List.count '|' a4 +
      List.count '|' a5 + List.count '|' a6 + List.count '|' a7 + 6 := by
  simp [List.count_append, List.count_cons]
  omega

theorem join7_inj {a1 a2 a3 a4 a5 a6 a7 b1 b2 b3 b4 b5 b6 b7 : List Char}
    (ha1 : '|' ∉ a1) (ha2 : '|' ∉ a2) (ha3 : '|' ∉ a3) (ha4 : '|' ∉ a4)
    (ha5 : '|' ∉ a5) (ha6 : '|' ∉ a6) (_ha7 : '|' ∉ a7)
    (hb1 : '|' ∉ b1) (hb2 : '|' ∉ b2) (hb3 : '|' ∉ b3) (hb4 : '|' ∉ b4)
    (hb5 : '|' ∉ b5) (hb6 : '|' ∉ b6) (_hb7 : '|' ∉ b7)
    (h : a1 ++ '|' :: (a2 ++ '|' :: (a3 ++ '|' :: (a4 ++ '|' ::
          (a5 ++ '|' :: (a6 ++ '|' :: a7))))) =
         b1 ++ '|' :: (b2 ++ '|' :: (b3 ++ '|' :: (b4 ++ '|' ::
          (b5 ++ '|' :: (b6 ++ '|' :: b7)))))) :
    a1 = b1 ∧ a2 = b2 ∧ a3 = b3 ∧ a4 = b4 ∧ a5 = b5 ∧ a6 = b6 ∧ a7 = b7 := by
  obtain ⟨e1, h⟩ := pipe_split ha1 hb1 h
  obtain ⟨e2, h⟩ := pipe_split ha2 hb2 h
  obtain ⟨e3, h⟩ := pipe_split ha3 hb3 h
  obtain ⟨e4, h⟩ := pipe_split ha4 hb4 h
  obtain ⟨e5, h⟩ := pipe_split ha5 hb5 h
  obtain ⟨e6, e7⟩ := pipe_split ha6 hb6 h
  exact ⟨e1, e2, e3, e4, e5, e6, e7⟩

theorem jsOr_merge {f : String → String} {x y : Option String} {d : String}
    (h : f (jsOr x d) = f (jsOr y d)) : f (jsOr (y <|> x) d) = f (jsOr y d) := by
  cases y with
  | none => simpa using h
  | some s => rfl

theorem jsOr_merge_id {x y : Option String} {d : String}
    (h : jsOr x d = jsOr y d) : jsOr (y <|> x) d = jsOr y d := by
  cases y with
  | none => simpa using h
  | some s => rfl

/-- An entry whose seven key components are free of the `"|"` join
delimiter (in particular, any entry built by the add/import flows, whose
plate text is normalized to `[A-Z0-9]*` and whose facets hold the
documented defaults). -/
def KeySafe (e : PlateRecord) : Prop := ∀ s ∈ keyParts e, '|' ∉ s.data

instance (e : PlateRecord) : Decidable (KeySafe e) := by
  unfold KeySafe; infer_instance

/-- A matched merge keeps the entry's key, provided the entry's own key
components contain no delimiter: the matched record's joined key then has
exactly six pipes, so its components are delimiter-free as well and the
two component lists agree position by position. -/
theorem mkKey_merge_of_eq {old e : PlateRecord}
    (hsafe : KeySafe e)
    (hkey : mkKey old = mkKey e) :
    mkKey (mergePlate old e) = mkKey e := by
  simp only [KeySafe, keyParts, List.mem_cons, List.mem_singleton, forall_eq_or_imp, forall_eq,
    List.not_mem_nil, or_false] at hsafe
  obtain ⟨hb1, hb2, hb3, hb4, hb5, hb6, hb7⟩ := hsafe
  have hd := congrArg String.data hkey
  simp only [mkKey, keyParts] at hd
  rw [intercalate7_data, intercalate7_data] at hd
  have hc := congrArg (List.count '|') hd
  rw [join7_count, join7_count] at hc
  rw [List.count_eq_zero.mpr hb1, List.count_eq_zero.mpr hb2, List.count_eq_zero.mpr hb3,
    List.count_eq_zero.mpr hb4, List.count_eq_zero.mpr hb5, List.count_eq_zero.mpr hb6,
    List.count_eq_zero.mpr hb7] at hc
  have ha1 : '|' ∉ (jsToUpper (jsOr old.plateText "")).data := List.count_eq_zero.mp (by omega)
  have ha2 : '|' ∉ (jsOr old.state "ID").data := List.count_eq_zero.mp (by omega)
  have ha3 : '|' ∉ (jsOr old.selectedVehicleType "PassengerVehicle").data :=
    List.count_eq_zero.mp (by omega)
  have ha4 : '|' ∉ (jsOr old.selectedKindOfPlate "Personalized").data :=
    List.count_eq_zero.mp (by omega)
  have ha5 : '|' ∉ (jsOr old.selectedPlateProgram "Select").data :=
    List.count_eq_zero.mp (by omega)
  have ha6 : '|' ∉ (jsOr old.selectedPlateProgramID "").data := List.count_eq_zero.mp (by omega)
  have ha7 : '|' ∉ (jsOr old.selectedPlateProgramSubCategory "Select").data :=
    List.count_eq_zero.mp (by omega)
  obtain ⟨e1, e2, e3, e4, e5, e6, e7⟩ :=
    join7_inj ha1 ha2 ha3 ha4 ha5 ha6 ha7 hb1 hb2 hb3 hb4 hb5 hb6 hb7 hd
  simp only [mkKey, keyParts, mergePlate]
  congr 1
  rw [jsOr_merge (str_ext e1)]
  rw [jsOr_merge_id (str_ext e2), jsOr_merge_id (str_ext e3),
    jsOr_merge_id (str_ext e4), jsOr_merge_id (str_ext e5),
    jsOr_merge_id (str_ext e6), jsOr_merge_id (str_ext e7)]

theorem upsertAux_keys {e : PlateRecord} (hsafe : KeySafe e) :
    ∀ (l : List PlateRecord), ∀ q ∈ upsertAux e l,
      mkKey q = mkKey e ∨ mkKey q ∈ l.map mkKey := by
  intro l
  induction l with
  | nil =>
    intro q hq
    simp only [upsertAux, List.mem_singleton] at hq
    subst hq; exact Or.inl rfl
  | cons p rest ih =>
    intro q hq
    simp only [upsertAux] at hq
    split at hq
    · rename_i hkey
      rcases List.mem_cons.mp hq with rfl | hq'
      · exact Or.inl (mkKey_merge_of_eq hsafe hkey)
      · exact Or.inr (by simp; right; exact ⟨q, hq', rfl⟩)
    · rcases List.mem_cons.mp hq with rfl | hq'
      · exact Or.inr (by simp)
      · rcases ih q hq' with h1 | h1
        · exact Or.inl h1
        · exact Or.inr (by simp at h1 ⊢; right; exact h1)

theorem upsertAux_pairwise {e : PlateRecord} (hsafe : KeySafe e) :
    ∀ (l : List PlateRecord), l.Pairwise (fun a b => mkKey a ≠ mkKey b) →
      (upsertAux e l).Pairwise (fun a b => mkKey a ≠ mkKey b) := by
  intro l
  induction l with
  | nil => intro _; simp [upsertAux]
  | cons p rest ih =>
    intro hl
    rw [List.pairwise_cons] at hl
    obtain ⟨hp, hrest⟩ := hl
    simp only [upsertAux]
    split
    · rename_i hkey
      rw [List.pairwise_cons]
      refine ⟨fun q hq => ?_, hrest⟩
      rw [mkKey_merge_of_eq hsafe hkey, ← hkey]
      exact hp q hq
    · rename_i hkey
      rw [List.pairwise_cons]
      refine ⟨fun q hq => ?_, ih hrest⟩
      rcases upsertAux_keys hsafe rest q hq with h1 | h1
      · rw [h1]; exact hkey
      · rcases List.mem_map.mp h1 with ⟨r, hr, hkr⟩
        rw [← hkr]; exact hp r hr

theorem upsertPlate_pairwise {l : List PlateRecord} {e : PlateRecord}
    (hsafe : KeySafe e) (hl : l.Pairwise (fun a b => mkKey a ≠ mkKey b)) :
    (upsertPlate l e).Pairwise (fun a b => mkKey a ≠ mkKey b) := by
  have hperm := List.mergeSort_perm (upsertAux e l) plateLe
  rw [upsertPlate, savePlates]
  exact (hperm.pairwise_iff (fun {x y} h => Ne.symm h)).mpr
    (upsertAux_pairwise hsafe l hl)

/-! ### Claim theorems -/

/-- C4: `normalizePlateText` is idempotent, its output never exceeds 7
characters, and every output character lies in `[A-Z0-9]`; being a total
Lean function of type `String → String`, it never fails on any input. -/
theorem C4_normalize_spec (s : String) :
    normalizePlateText (normalizePlateText s) = normalizePlateText s ∧
    (normalizePlateText s).length ≤ 7 ∧
    ∀ c ∈ (normalizePlateText s).data, isPlateChar c = true :=
  ⟨normalize_idempotent s, normalize_length, fun _ hc => (mem_normalize hc).1⟩

/-- C2: `isDue` returns `true` exactly when the record was never checked,
its timestamp is unparsable, or the current month or year differs from the
last check's; consequently a record checked on any day of month `m` is due
on any day of the following month (including the December to January
wrap), and a record checked in some month is not due again on any later
day of that same month and year. -/
theorem C2_isDue_spec :
    (∀ (now : JsDate) (p : PlateRecord),
      isDue now p = true ↔
        p.lastCheckedUtc = none ∨
        (∃ raw, p.lastCheckedUtc = some (.invalid raw)) ∨
        (∃ d, p.lastCheckedUtc = some (.valid d) ∧
          (d.month ≠ now.month ∨ d.year ≠ now.year))) ∧
    (∀ (p : PlateRecord) (y m dayM dayN : Nat), m + 1 ≤ 11 →
      p.lastCheckedUtc = some (.valid ⟨y, m, dayM⟩) →
      isDue ⟨y, m + 1, dayN⟩ p = true) ∧
    (∀ (p : PlateRecord) (y dayM dayN : Nat),
      p.lastCheckedUtc = some (.valid ⟨y, 11, dayM⟩) →
      isDue ⟨y + 1, 0, dayN⟩ p = true) ∧
    (∀ (p : PlateRecord) (y m dayM dayN : Nat),
      p.lastCheckedUtc = some (.valid ⟨y, m, dayM⟩) →
      isDue ⟨y, m, dayN⟩ p = false) := by
  refine ⟨fun now p => ?_, fun p y m dayM dayN hm hp => ?_, fun p y dayM dayN hp => ?_,
    fun p y m dayM dayN hp => ?_⟩
  · match hts : p.lastCheckedUtc with
    | none => simp [isDue, hts]
    | some (.invalid raw) => simp [isDue, hts]
    | some (.valid d) => simp [isDue, hts]
  · simp [isDue, hp]
  · simp [isDue, hp]
  · simp [isDue, hp]

/-- Witness for C2 at a concrete record: a record checked 2025-12-31 is
due on 2026-01-01. -/
theorem C2_isDue_spec_witness :
    isDue ⟨2026, 0, 1⟩
      { plateText := some "SWAG", state := none, selectedVehicleType := none,
        selectedKindOfPlate := none, selectedPlateProgram := none,
        selectedPlateProgramID := none, selectedPlateProgramSubCategory := none,
        lastStatus := some "Available",
        lastCheckedUtc := some (.valid ⟨2025, 11, 31⟩),
        history := none } = true :=
  C2_isDue_spec.2.2.1 _ 2025 31 1 rfl

/-- C6: `mkKey` reads only `plateText`, `state` (the jurisdiction) and the
five facet fields, so any mutation touching only `lastStatus`,
`lastCheckedUtc` or `history` — in particular `markChecked` — leaves the
derived key unchanged. -/
theorem C6_mkKey_stable :
    (∀ (p : PlateRecord) (status : String) (note : Option String) (ts : JsDate),
      mkKey (markChecked p status note ts) = mkKey p) ∧
    (∀ p q : PlateRecord,
      p.plateText = q.plateText → p.state = q.state →
      p.selectedVehicleType = q.selectedVehicleType →
      p.selectedKindOfPlate = q.selectedKindOfPlate →
      p.selectedPlateProgram = q.selectedPlateProgram →
      p.selectedPlateProgramID = q.selectedPlateProgramID →
      p.selectedPlateProgramSubCategory = q.selectedPlateProgramSubCategory →
      mkKey p = mkKey q) := by
  constructor
  · intro p status note ts
    rfl
  · intro p q h1 h2 h3 h4 h5 h6 h7
    simp [mkKey, keyParts, h1, h2, h3, h4, h5, h6, h7]

/-- Witness for C6: two concrete records differing only in status,
timestamp and history have the same key. -/
theorem C6_mkKey_stable_witness :
    mkKey { plateText := some "SWAG", state := some "ID", selectedVehicleType := none,
            selectedKindOfPlate := none, selectedPlateProgram := none,
            selectedPlateProgramID := none, selectedPlateProgramSubCategory := none,
            lastStatus := some "Unknown", lastCheckedUtc := none, history := some [] } =
    mkKey { plateText := some "SWAG", state := some "ID", selectedVehicleType := none,
            selectedKindOfPlate := none, selectedPlateProgram := none,
            selectedPlateProgramID := none, selectedPlateProgramSubCategory := none,
            lastStatus := some "Error", lastCheckedUtc := some (.valid ⟨2026, 0, 1⟩),
            history := none } :=
  C6_mkKey_stable.2 _ _ rfl rfl rfl rfl rfl rfl rfl

/-- C10: after `markChecked` the history is present and non-empty, its
last entry's status and timestamp agree with the record's `lastStatus` and
`lastCheckedUtc`, and a record whose `history` field was absent ends up
with exactly one entry. -/
theorem C10_markChecked_sync (p : PlateRecord) (status : String)
    (note : Option String) (ts : JsDate) :
    ∃ e : HistoryEntry,
      (markChecked p status note ts).history = some (p.history.getD [] ++ [e]) ∧
      ((markChecked p status note ts).history.getD []) ≠ [] ∧
      ((markChecked p status note ts).history.getD []).getLast? = some e ∧
      (markChecked p status note ts).lastStatus = some e.status ∧
      (markChecked p status note ts).lastCheckedUtc = some e.checkedUtc ∧
      (p.history = none →
        (markChecked p status note ts).history = some [e]) := by
  refine ⟨{ status := status, checkedUtc := .valid ts, note := jsNote note },
    rfl, by simp [markChecked], by simp [markChecked], rfl, rfl, fun h => by
      simp [markChecked, h]⟩

/-- C7: `loadPlates` returns the decoded array when the payload is a
decodable array, and the empty list on every other payload (missing,
undecodable, or non-array); it is a total function, so no decode failure
reaches the caller. -/
theorem C7_loadPlates_defensive (p : StoredPayload) :
    (∀ l, p = .arrayVal l → loadPlates p = l) ∧
    ((∀ l, p ≠ .arrayVal l) → loadPlates p = []) := by
  constructor
  · intro l h; rw [h]; rfl
  · intro h
    match p with
    | .missing => rfl
    | .emptyStr => rfl
    | .malformed _ => rfl
    | .nonArray => rfl
    | .arrayVal l => exact absurd rfl (h l)

/-- Witness for C7: a corrupt payload loads as the empty collection, and
an array payload loads as itself. -/
theorem C7_loadPlates_defensive_witness :
    loadPlates (.malformed "not json") = [] ∧
    loadPlates (.arrayVal []) = [] :=
  ⟨(C7_loadPlates_defensive (.malformed "not json")).2 (fun _ h => by cases h),
   (C7_loadPlates_defensive (.arrayVal [])).1 [] rfl⟩

/-- A stored record whose `selectedPlateProgramID` hides a `"|"`: its key
`"A|B|C|D|E|F||G"` coincides with that of `cexEntry` below. -/
def cexOld : PlateRecord :=
  { plateText := some "A", state := some "B", selectedVehicleType := some "C",
    selectedKindOfPlate := some "D", selectedPlateProgram := some "E",
    selectedPlateProgramID := some "F|", selectedPlateProgramSubCategory := some "G",
    lastStatus := none, lastCheckedUtc := none, history := none }

/-- A stored record whose key `"A|B|C|D|E|F|F||G"` equals the key the
merge of `cexOld` and `cexEntry` will produce. -/
def cexTwo : PlateRecord :=
  { plateText := some "A|B", state := some "C", selectedVehicleType := some "D",
    selectedKindOfPlate := some "E", selectedPlateProgram := some "F",
    selectedPlateProgramID := some "F|", selectedPlateProgramSubCategory := some "G",
    lastStatus := none, lastCheckedUtc := none, history := none }

/-- An entry with an absent `selectedPlateProgramID` whose key matches
`cexOld`; merging fills the absent facet from `cexOld`, changing the key. -/
def cexEntry : PlateRecord :=
  { plateText := some "A|B", state := some "C", selectedVehicleType := some "D",
    selectedKindOfPlate := some "E", selectedPlateProgram := some "F",
    selectedPlateProgramID := none, selectedPlateProgramSubCategory := some "G",
    lastStatus := none, lastCheckedUtc := none, history := none }

/-- C3 counterexample: starting from the empty store (trivially without
duplicate keys), the three upserts of `cexOld`, `cexTwo`, `cexEntry`
produce a store with two records of equal derived key: the `"|"` join
delimiter occurring inside facet values misaligns the key components, so
the claim fails for arbitrary entries. -/
theorem C3_upsert_uniqueness_cex :
    List.Pairwise (fun a b => mkKey a ≠ mkKey b) ([] : List PlateRecord) ∧
    ¬ List.Pairwise (fun a b => mkKey a ≠ mkKey b)
      (upsertPlate (upsertPlate (upsertPlate [] cexOld) cexTwo) cexEntry) := by
  have h1 : upsertPlate [] cexOld = [cexOld] := by
    simp [upsertPlate, upsertAux, savePlates]
  have h2 : upsertPlate [cexOld] cexTwo = [cexOld, cexTwo] := by
    rw [upsertPlate]
    rw [show upsertAux cexTwo [cexOld] = [cexOld, cexTwo] by
      simp only [upsertAux]
      rw [if_neg (by decide)]]
    exact List.mergeSort_of_sorted (by decide)
  have h3 : upsertPlate [cexOld, cexTwo] cexEntry = [mergePlate cexOld cexEntry, cexTwo] := by
    rw [upsertPlate]
    rw [show upsertAux cexEntry [cexOld, cexTwo] = [mergePlate cexOld cexEntry, cexTwo] by
      simp only [upsertAux]
      rw [if_pos (by decide)]]
    exact List.mergeSort_of_sorted (by decide)
  refine ⟨List.Pairwise.nil, ?_⟩
  rw [h1, h2, h3]
  decide

/-- C3 amended: for entries whose seven key components are free of the
`"|"` delimiter, any sequence of upserts preserves key-uniqueness of the
store: a matched upsert replaces in place without changing the key, an
unmatched one appends a fresh key. -/
theorem C3_upsert_uniqueness_amended (store : List PlateRecord)
    (entries : List PlateRecord)
    (hstore : store.Pairwise (fun a b => mkKey a ≠ mkKey b))
    (hsafe : ∀ e ∈ entries, KeySafe e) :
    (entries.foldl upsertPlate store).Pairwise (fun a b => mkKey a ≠ mkKey b) := by
  induction entries generalizing store with
  | nil => exact hstore
  | cons e rest ih =>
    simp only [List.foldl_cons]
    exact ih (upsertPlate store e)
      (upsertPlate_pairwise (hsafe e (List.mem_cons_self e rest)) hstore)
      (fun q hq => hsafe q (List.mem_cons_of_mem e hq))

/-- Witness for the amended C3 at a concrete run: upserting two
delimiter-free entries into the empty store keeps keys unique. -/
theorem C3_upsert_uniqueness_amended_witness :
    (([{ plateText := some "SWAG", state := some "ID", selectedVehicleType := none,
         selectedKindOfPlate := none, selectedPlateProgram := none,
         selectedPlateProgramID := none, selectedPlateProgramSubCategory := none,
         lastStatus := none, lastCheckedUtc := none, history := none },
       { plateText := some "C0LLECT", state := some "CA", selectedVehicleType := none,
         selectedKindOfPlate := none, selectedPlateProgram := none,
         selectedPlateProgramID := none, selectedPlateProgramSubCategory := none,
         lastStatus := none, lastCheckedUtc := none, history := none }] :
      List PlateRecord).foldl upsertPlate []).Pairwise
        (fun a b => mkKey a ≠ mkKey b) :=
  C3_upsert_uniqueness_amended [] _ List.Pairwise.nil (by decide)

/-- C9 counterexample: the input `"!"` normalizes to the empty string, so
the claim asserts a rejection with message
`"plate text must be 1–7 letters/numbers"`; the code's message spells it
`"plateText must be 1–7 letters/numbers"`. -/
theorem C9_validate_cex :
    normalizePlateText "!" = "" ∧
    validatePlateText "!" ≠ Except.error "plate text must be 1–7 letters/numbers" := by
  constructor
  · rfl
  · intro h
    have hv : validatePlateText "!" = Except.error "plateText must be 1–7 letters/numbers" := rfl
    rw [hv] at h
    exact absurd (Except.error.inj h) (by decide)

/-- C9 amended: `validatePlateText` rejects with the message
`"plateText must be 1–7 letters/numbers"` exactly when the input
normalizes to the empty string, otherwise accepts with the normalized
text; a rejected submission leaves the store untouched. -/
theorem C9_validate_amended (s : String) :
    (validatePlateText s = .error "plateText must be 1–7 letters/numbers" ↔
      normalizePlateText s = "") ∧
    (normalizePlateText s ≠ "" → validatePlateText s = .ok (normalizePlateText s)) ∧
    (∀ (store : List PlateRecord) (stateSel : String)
       (remote : PlateRecord → Except String Bool) (ts : JsDate),
      normalizePlateText s = "" → (submitPlate store s stateSel remote ts).1 = store) := by
  refine ⟨?_, ?_, ?_⟩
  · constructor
    · intro h
      by_contra hne
      simp [validatePlateText, hne] at h
    · intro h
      simp [validatePlateText, h]
  · intro h
    simp [validatePlateText, h]
  · intro store stateSel remote ts h
    simp [submitPlate, validatePlateText, h]

/-- Witness for the amended C9: submitting `"!"` against the empty store
leaves it empty. -/
theorem C9_validate_amended_witness :
    (submitPlate [] "!" "ID" (fun _ => Except.ok true) ⟨2026, 0, 1⟩).1 = [] :=
  (C9_validate_amended "!").2.2 [] "ID" (fun _ => Except.ok true) ⟨2026, 0, 1⟩ rfl

theorem charListLe_total : ∀ x y : List Char, charListLe x y || charListLe y x := by
  intro x
  induction x with
  | nil => intro y; simp [charListLe]
  | cons a as ih =>
    intro y
    cases y with
    | nil => simp [charListLe]
    | cons b bs =>
      by_cases hab : a < b
      · simp [charListLe, hab]
      · by_cases hba : b < a
        · simp [charListLe, hab, hba]
        · simpa [charListLe, hab, hba] using ih bs

theorem charListLe_trans : ∀ x y z : List Char,
    charListLe x y = true → charListLe y z = true → charListLe x z = true := by
  intro x
  induction x with
  | nil => intro y z _ _; simp [charListLe]
  | cons a as ih =>
    intro y z hxy hyz
    cases y with
    | nil => simp [charListLe] at hxy
    | cons b bs =>
      cases z with
      | nil => simp [charListLe] at hyz
      | cons c cs =>
        by_cases hab : a < b
        · by_cases hbc : b < c
          · simp [charListLe, lt_trans hab hbc]
          · by_cases hcb : c < b
            · simp [charListLe, hbc, hcb] at hyz
            · have hbc' : b = c := le_antisymm (not_lt.mp hcb) (not_lt.mp hbc)
              subst hbc'
              simp [charListLe, hab]
        · by_cases hba : b < a
          · simp [charListLe, hab, hba] at hxy
          · have hab' : a = b := le_antisymm (not_lt.mp hba) (not_lt.mp hab)
            subst hab'
            simp only [charListLe, lt_irrefl, if_false] at hxy
            by_cases hac : a < c
            · simp [charListLe, hac]
            · by_cases hca : c < a
              · simp [charListLe, hac, hca] at hyz
              · have hac' : a = c := le_antisymm (not_lt.mp hca) (not_lt.mp hac)
                subst hac'
                simp only [charListLe, lt_irrefl, if_false] at hyz ⊢
                exact ih bs cs hxy hyz

theorem plateLe_trans (a b c : PlateRecord) :
    plateLe a b → plateLe b c → plateLe a c :=
  charListLe_trans _ _ _

theorem plateLe_total (a b : PlateRecord) : plateLe a b || plateLe b a :=
  charListLe_total _ _

theorem savePlates_sorted (arr : List PlateRecord) :
    (savePlates arr).Pairwise (fun a b => plateLe a b = true) :=
  List.sorted_mergeSort plateLe_trans plateLe_total arr

theorem refreshLoopAux_saves_sorted (remote : PlateRecord → Except String Bool)
    (clock : Nat → JsDate) (total : Nat) :
    ∀ (fuel j : Nat) (arr : List PlateRecord),
      ∀ s ∈ (refreshLoopAux remote clock total fuel j arr).2.1,
        s.Pairwise (fun a b => plateLe a b = true) := by
  intro fuel
  induction fuel with
  | zero => intro j arr s hs; simp [refreshLoopAux] at hs
  | succ fuel ih =>
    intro j arr s hs
    simp only [refreshLoopAux] at hs
    split at hs
    · rcases List.mem_cons.mp hs with rfl | hs'
      · exact savePlates_sorted _
      · exact ih _ _ s hs'
    · simp at hs

/-- C5: every list passed to `savePlates` is persisted in non-decreasing
order of case-insensitive `plateText`; since `upsertPlate`, `deleteByKey`
and each per-record persist of the refresh loop all go through
`savePlates`, the persisted collection is sorted after every write. -/
theorem C5_sorted_after_save :
    (∀ arr : List PlateRecord,
      (savePlates arr).Pairwise (fun a b => plateLe a b = true)) ∧
    (∀ (list : List PlateRecord) (e : PlateRecord),
      (upsertPlate list e).Pairwise (fun a b => plateLe a b = true)) ∧
    (∀ (list : List PlateRecord) (k : String),
      (deleteByKey list k).Pairwise (fun a b => plateLe a b = true)) ∧
    (∀ (remote : PlateRecord → Except String Bool) (clock : Nat → JsDate)
       (all : List PlateRecord),
      ∀ s ∈ (refreshDueForce remote clock all).2.1,
        s.Pairwise (fun a b => plateLe a b = true)) := by
  refine ⟨savePlates_sorted, fun list e => savePlates_sorted _,
    fun list k => savePlates_sorted _, fun remote clock all s hs => ?_⟩
  rw [refreshDueForce] at hs
  split at hs
  · simp at hs
  · exact refreshLoopAux_saves_sorted remote clock all.length all.length 0 all s hs

/-- Witness for C5: the snapshot persisted by a concrete one-record forced
refresh is sorted. -/
theorem C5_sorted_after_save_witness :
    ([markChecked
        { plateText := some "SWAG", state := some "ID", selectedVehicleType := none,
          selectedKindOfPlate := none, selectedPlateProgram := none,
          selectedPlateProgramID := none, selectedPlateProgramSubCategory := none,
          lastStatus := some "Unknown", lastCheckedUtc := none, history := some [] }
        "Error" (some "boom") ⟨2026, 0, 1⟩] : List PlateRecord).Pairwise
      (fun a b => plateLe a b = true) :=
  C5_sorted_after_save.2.2.2 (fun _ => Except.error "boom") (fun _ => ⟨2026, 0, 1⟩)
    [{ plateText := some "SWAG", state := some "ID", selectedVehicleType := none,
       selectedKindOfPlate := none, selectedPlateProgram := none,
       selectedPlateProgramID := none, selectedPlateProgramSubCategory := none,
       lastStatus := some "Unknown", lastCheckedUtc := none, history := some [] }]
    _ (by simp [refreshDueForce, refreshLoopAux, savePlates, processOne, checkAvailability])

/-- C8: on a (persisted, hence sorted) collection, `deleteByKey` with a
key held by exactly one record removes precisely that record, keeping the
remainder element-for-element in order; with a key held by no record it
leaves the collection unchanged; it never raises (total function), no
record with the key survives, and every other record survives. -/
theorem C8_deleteByKey_spec (list : List PlateRecord) (k : String)
    (hs : list.Pairwise (fun a b => plateLe a b = true)) :
    (list.countP (fun p => decide (mkKey p = k)) = 0 → deleteByKey list k = list) ∧
    (list.countP (fun p => decide (mkKey p = k)) = 1 →
      deleteByKey list k = list.filter (fun p => decide (mkKey p ≠ k)) ∧
      (deleteByKey list k).length + 1 = list.length) ∧
    (∀ p ∈ deleteByKey list k, mkKey p ≠ k) ∧
    (∀ p ∈ list, mkKey p ≠ k → p ∈ deleteByKey list k) := by
  have hsf : (list.filter (fun p => decide (mkKey p ≠ k))).Pairwise
      (fun a b => plateLe a b = true) :=
    List.Pairwise.sublist (List.filter_sublist list) hs
  have hdel : deleteByKey list k = list.filter (fun p => decide (mkKey p ≠ k)) := by
    rw [deleteByKey, savePlates]
    exact List.mergeSort_of_sorted hsf
  refine ⟨fun h0 => ?_, fun h1 => ⟨hdel, ?_⟩, fun p hp => ?_, fun p hp hk => ?_⟩
  · rw [hdel]
    apply List.filter_eq_self.mpr
    intro a ha
    have := List.countP_eq_zero.mp h0 a ha
    simpa using this
  · have key : ∀ l : List PlateRecord,
        l.countP (fun p => decide (mkKey p ≠ k)) +
          l.countP (fun p => decide (mkKey p = k)) = l.length := by
      intro l
      induction l with
      | nil => simp
      | cons a as ih =>
        by_cases h : mkKey a = k <;> simp [List.countP_cons, h, ← ih] <;> omega
    rw [hdel, ← List.countP_eq_length_filter]
    have := key list
    omega
  · rw [hdel] at hp
    have := (List.mem_filter.mp hp).2
    simpa using this
  · rw [hdel]
    exact List.mem_filter.mpr ⟨hp, by simpa using hk⟩

/-- Witness for C8: deleting a missing key from a concrete sorted
two-record store returns it unchanged. -/
theorem C8_deleteByKey_spec_witness :
    deleteByKey
      [{ plateText := some "AAA", state := some "ID", selectedVehicleType := none,
         selectedKindOfPlate := none, selectedPlateProgram := none,
         selectedPlateProgramID := none, selectedPlateProgramSubCategory := none,
         lastStatus := none, lastCheckedUtc := none, history := none },
       { plateText := some "BBB", state := some "ID", selectedVehicleType := none,
         selectedKindOfPlate := none, selectedPlateProgram := none,
         selectedPlateProgramID := none, selectedPlateProgramSubCategory := none,
         lastStatus := none, lastCheckedUtc := none, history := none }] "nope" =
      [{ plateText := some "AAA", state := some "ID", selectedVehicleType := none,
         selectedKindOfPlate := none, selectedPlateProgram := none,
         selectedPlateProgramID := none, selectedPlateProgramSubCategory := none,
         lastStatus := none, lastCheckedUtc := none, history := none },
       { plateText := some "BBB", state := some "ID", selectedVehicleType := none,
         selectedKindOfPlate := none, selectedPlateProgram := none,
         selectedPlateProgramID := none, selectedPlateProgramSubCategory := none,
         lastStatus := none, lastCheckedUtc := none, history := none }] :=
  (C8_deleteByKey_spec _ "nope" (by decide)).1 (by decide)

/-- The plate texts from index `j` onward, each processed by its own
check; the shape `refreshDueForce`'s final collection takes. -/
def processFrom (remote : PlateRecord → Except String Bool) (clock : Nat → JsDate) :
    Nat → List PlateRecord → List PlateRecord
  | _, [] => []
  | j, p :: rest => processOne remote clock j p :: processFrom remote clock (j + 1) rest

/-- The successive whole-collection snapshots persisted by the loop,
starting at cursor `j` with `done` already processed. -/
def snapsFrom (remote : PlateRecord → Except String Bool) (clock : Nat → JsDate) :
    Nat → List PlateRecord → List PlateRecord → List (List PlateRecord)
  | _, _, [] => []
  | j, done, p :: rest =>
    (done ++ processOne remote clock j p :: rest) ::
      snapsFrom remote clock (j + 1) (done ++ [processOne remote clock j p]) rest

theorem processOne_plateText (remote : PlateRecord → Except String Bool)
    (clock : Nat → JsDate) (j : Nat) (p : PlateRecord) :
    (processOne remote clock j p).plateText = p.plateText := by
  simp only [processOne]
  cases checkAvailability remote p <;> rfl

theorem set_get_self {α : Type} : ∀ (l : List α) (j : Nat) (h : j < l.length),
    l.set j (l.get ⟨j, h⟩) = l := by
  intro l
  induction l with
  | nil => intro j h; simp at h
  | cons a as ih =>
    intro j h
    cases j with
    | zero => rfl
    | succ j => simpa using ih j (by simpa using h)

/-- The sort key of a record: the comparator reads nothing else. -/
def sortKey (p : PlateRecord) : List Char := (jsToLower (jsOr p.plateText "")).data

theorem pairwise_set_same {arr : List PlateRecord} {j : Nat} {p' : PlateRecord}
    (hs : arr.Pairwise (fun a b => plateLe a b = true)) (hj : j < arr.length)
    (hpt : p'.plateText = (arr.get ⟨j, hj⟩).plateText) :
    (arr.set j p').Pairwise (fun a b => plateLe a b = true) := by
  have hmap : (arr.set j p').map sortKey = arr.map sortKey := by
    rw [List.map_set]
    have hk : sortKey p' = (arr.map sortKey).get ⟨j, by simpa using hj⟩ := by
      simp [sortKey, hpt]
    rw [hk, set_get_self]
  have hgoal : ((arr.set j p').map sortKey).Pairwise
      (fun x y => charListLe x y = true) := by
    rw [hmap, List.pairwise_map]
    exact hs
  rw [List.pairwise_map] at hgoal
  exact hgoal

/-- On a sorted collection the in-place re-sort after each record is the
identity, so the cursor sweep of the loop processes exactly the records
from `j` on, persists one snapshot per record, and reports
`(j+1, total), ...` in order. -/
theorem refreshLoopAux_eq (remote : PlateRecord → Except String Bool)
    (clock : Nat → JsDate) (total : Nat) :
    ∀ (fuel j : Nat) (arr : List PlateRecord),
      arr.Pairwise (fun a b => plateLe a b = true) →
      j + fuel = arr.length →
      refreshLoopAux remote clock total fuel j arr =
        (arr.take j ++ processFrom remote clock j (arr.drop j),
         snapsFrom remote clock j (arr.take j) (arr.drop j),
         (List.range' (j + 1) fuel).map (fun i => (i, total))) := by
  intro fuel
  induction fuel with
  | zero =>
    intro j arr _ hlen
    have hdrop : arr.drop j = [] := List.drop_eq_nil_of_le (by omega)
    have htake : arr.take j = arr := List.take_of_length_le (by omega)
    simp [refreshLoopAux, hdrop, htake, processFrom, snapsFrom]
  | succ fuel ih =>
    intro j arr hs hlen
    have hj : j < arr.length := by omega
    set p := arr.get ⟨j, hj⟩ with hp
    set p' := processOne remote clock j p with hp'
    have hpt : p'.plateText = p.plateText := processOne_plateText remote clock j p
    have hsset : (arr.set j p').Pairwise (fun a b => plateLe a b = true) :=
      pairwise_set_same hs hj (by rw [hpt])
    have hsave : savePlates (arr.set j p') = arr.set j p' :=
      List.mergeSort_of_sorted hsset
    have hsetd : arr.set j p' = arr.take j ++ p' :: arr.drop (j + 1) :=
      List.set_eq_take_cons_drop p' hj
    have hlentake : (arr.take j).length = j := by
      rw [List.length_take]; omega
    have hdropj : arr.drop j = p :: arr.drop (j + 1) :=
      List.drop_eq_getElem_cons hj
    have htake2 : (arr.set j p').take (j + 1) = arr.take j ++ [p'] := by
      rw [hsetd, List.take_append_eq_append_take, hlentake,
        List.take_of_length_le (by omega)]
      congr 1
      simp [Nat.sub_self]
    have hdrop2 : (arr.set j p').drop (j + 1) = arr.drop (j + 1) := by
      rw [hsetd, List.drop_append_eq_append_drop, hlentake,
        List.drop_of_length_le (l := arr.take j) (by omega)]
      simp
    have hlen2 : (j + 1) + fuel = (arr.set j p').length := by
      rw [List.length_set]; omega
    have hrec := ih (j + 1) (arr.set j p') hsset hlen2
    simp only [refreshLoopAux, dif_pos hj]
    rw [← hp, ← hp', hsave, hrec, htake2, hdrop2]
    refine congrArg₂ Prod.mk ?_ (congrArg₂ Prod.mk ?_ ?_)
    · rw [hdropj, processFrom, List.append_assoc]
      rfl
    · rw [hdropj, snapsFrom, ← hsetd]
    · rw [List.range'_succ]
      rfl

theorem processFrom_length (remote : PlateRecord → Except String Bool)
    (clock : Nat → JsDate) :
    ∀ (j : Nat) (l : List PlateRecord),
      (processFrom remote clock j l).length = l.length := by
  intro j l
  induction l generalizing j with
  | nil => rfl
  | cons p rest ih => simp [processFrom, ih]

theorem processFrom_getElem? (remote : PlateRecord → Except String Bool)
    (clock : Nat → JsDate) :
    ∀ (l : List PlateRecord) (j i : Nat),
      (processFrom remote clock j l)[i]? =
        (l[i]?).map (fun p => processOne remote clock (j + i) p) := by
  intro l
  induction l with
  | nil => intro j i; simp [processFrom]
  | cons p rest ih =>
    intro j i
    cases i with
    | zero => simp [processFrom]
    | succ i =>
      simp only [processFrom, List.getElem?_cons_succ]
      rw [ih (j + 1) i]
      have harith : j + 1 + i = j + (i + 1) := by omega
      rw [harith]

theorem snapsFrom_length (remote : PlateRecord → Except String Bool)
    (clock : Nat → JsDate) :
    ∀ (l : List PlateRecord) (j : Nat) (done : List PlateRecord),
      (snapsFrom remote clock j done l).length = l.length := by
  intro l
  induction l with
  | nil => intro j done; rfl
  | cons p rest ih => intro j done; simp [snapsFrom, ih]

theorem snapsFrom_getLast? (remote : PlateRecord → Except String Bool)
    (clock : Nat → JsDate) :
    ∀ (l : List PlateRecord) (j : Nat) (done : List PlateRecord), l ≠ [] →
      (snapsFrom remote clock j done l).getLast? =
        some (done ++ processFrom remote clock j l) := by
  intro l
  induction l with
  | nil => intro j done h; exact absurd rfl h
  | cons p rest ih =>
    intro j done _
    cases rest with
    | nil => simp [snapsFrom, processFrom]
    | cons q rest' =>
      rw [snapsFrom, snapsFrom, List.getLast?_cons_cons, ← snapsFrom]
      rw [ih (j + 1) (done ++ [processOne remote clock j p]) (by simp)]
      rw [processFrom, List.append_assoc]
      rfl

theorem processOne_spec (remote : PlateRecord → Except String Bool)
    (clock : Nat → JsDate) (j : Nat) (p : PlateRecord)
    (hmsg : ∀ m, remote p = .error m → m ≠ "") :
    ∃ e : HistoryEntry,
      (processOne remote clock j p).history = some (p.history.getD [] ++ [e]) ∧
      e.checkedUtc = .valid (clock j) ∧
      (processOne remote clock j p).lastCheckedUtc = some (.valid (clock j)) ∧
      (processOne remote clock j p).lastStatus = some e.status ∧
      (∀ b, remote p = .ok b →
        e.status = (if b then "Available" else "Unavailable") ∧ e.note = none) ∧
      (∀ m, remote p = .error m → e.status = "Error" ∧ e.note = some m) := by
  cases hrp : remote p with
  | ok b =>
    refine ⟨{ status := if b then "Available" else "Unavailable",
              checkedUtc := .valid (clock j), note := none }, ?_, rfl, ?_, ?_, ?_, ?_⟩
    · simp [processOne, checkAvailability, hrp, markChecked, jsNote]
    · simp [processOne, checkAvailability, hrp, markChecked]
    · simp [processOne, checkAvailability, hrp, markChecked]
    · intro b' hb'
      cases hb'
      exact ⟨rfl, rfl⟩
    · intro m hm
      cases hm
  | error m =>
    have hm' : m ≠ "" := hmsg m hrp
    refine ⟨{ status := "Error", checkedUtc := .valid (clock j), note := some m },
      ?_, rfl, ?_, ?_, ?_, ?_⟩
    · simp [processOne, checkAvailability, hrp, markChecked, jsNote, hm']
    · simp [processOne, checkAvailability, hrp, markChecked]
    · simp [processOne, checkAvailability, hrp, markChecked]
    · intro b' hb'
      cases hb'
    · intro m' hm2
      cases hm2
      exact ⟨rfl, rfl⟩

/-- C1: a forced refresh over a non-empty (persisted, hence sorted)
collection, with availability succeeding on some records and failing on
others (every failure carrying a non-empty message, as
`String(e?.message||e)` yields), processes every record: the final
collection has one entry per input record, each record gains exactly one
appended history entry stamped with that step's clock; on success the
entry and the record's `lastStatus` carry the returned status and
`lastCheckedUtc` the timestamp; on failure the entry has status `"Error"`
and the message as note; one whole-collection snapshot is persisted per
record (the last being the final collection), and progress is reported as
`(1, N), ..., (N, N)`.  No per-record failure aborts the run: the
conclusions hold at every index regardless of the mix of outcomes. -/
theorem C1_refresh_forced (remote : PlateRecord → Except String Bool)
    (clock : Nat → JsDate) (all : List PlateRecord)
    (hne : all ≠ [])
    (hs : all.Pairwise (fun a b => plateLe a b = true))
    (hmsg : ∀ p m, remote p = .error m → m ≠ "") :
    (refreshDueForce remote clock all).1.length = all.length ∧
    (refreshDueForce remote clock all).2.1.length = all.length ∧
    (refreshDueForce remote clock all).2.1.getLast? =
      some (refreshDueForce remote clock all).1 ∧
    (refreshDueForce remote clock all).2.2 =
      (List.range all.length).map (fun i => (i + 1, all.length)) ∧
    (∀ i (h : i < all.length),
      ∃ q e, (refreshDueForce remote clock all).1[i]? = some q ∧
        q.history = some ((all.get ⟨i, h⟩).history.getD [] ++ [e]) ∧
        e.checkedUtc = .valid (clock i) ∧
        q.lastCheckedUtc = some (.valid (clock i)) ∧
        q.lastStatus = some e.status ∧
        (∀ b, remote (all.get ⟨i, h⟩) = .ok b →
          e.status = (if b then "Available" else "Unavailable") ∧ e.note = none) ∧
        (∀ m, remote (all.get ⟨i, h⟩) = .error m →
          e.status = "Error" ∧ e.note = some m)) := by
  have hrun : refreshDueForce remote clock all =
      (processFrom remote clock 0 all,
       snapsFrom remote clock 0 [] all,
       (List.range' 1 all.length).map (fun i => (i, all.length))) := by
    rw [refreshDueForce, if_neg (by simpa using hne)]
    rw [refreshLoopAux_eq remote clock all.length all.length 0 all hs (by omega)]
    simp
  rw [hrun]
  refine ⟨processFrom_length remote clock 0 all,
    snapsFrom_length remote clock all 0 [],
    by simpa using snapsFrom_getLast? remote clock all 0 [] hne,
    ?_, ?_⟩
  · rw [List.range'_eq_map_range, List.map_map]
    apply List.map_congr_left
    intro i _
    simp [Nat.add_comm]
  · intro i h
    obtain ⟨e, he⟩ := processOne_spec remote clock i (all.get ⟨i, h⟩)
      (hmsg (all.get ⟨i, h⟩))
    refine ⟨processOne remote clock i (all.get ⟨i, h⟩), e, ?_,
      he.1, he.2.1, he.2.2.1, he.2.2.2.1, he.2.2.2.2.1, he.2.2.2.2.2⟩
    rw [processFrom_getElem? remote clock all 0 i]
    simp [List.getElem?_eq_getElem h]

/-- A two-record store for exercising the forced refresh: `"AAA"` checks
available, everything else fails with message `"boom"`. -/
def remoteW : PlateRecord → Except String Bool := fun p =>
  if p.plateText = some "AAA" then .ok true else .error "boom"

def clockW : Nat → JsDate := fun _ => ⟨2026, 0, 1⟩

def allW : List PlateRecord :=
  [{ plateText := some "AAA", state := some "ID", selectedVehicleType := none,
     selectedKindOfPlate := none, selectedPlateProgram := none,
     selectedPlateProgramID := none, selectedPlateProgramSubCategory := none,
     lastStatus := some "Unknown", lastCheckedUtc := none, history := some [] },
   { plateText := some "BBB", state := some "ID", selectedVehicleType := none,
     selectedKindOfPlate := none, selectedPlateProgram := none,
     selectedPlateProgramID := none, selectedPlateProgramSubCategory := none,
     lastStatus := some "Unknown", lastCheckedUtc := none, history := some [] }]

/-- Witness for C1: on the concrete two-record run with one failure, the
in-loop progress reports are `1/2, 2/2`. -/
theorem C1_refresh_forced_witness :
    (refreshDueForce remoteW clockW allW).2.2 = [(1, 2), (2, 2)] := by
  have h := C1_refresh_forced remoteW clockW allW (by simp [allW]) (by decide)
    (by
      intro p m hm
      simp only [remoteW] at hm
      split at hm
      · cases hm
      · cases hm
        decide)
  rw [h.2.2.2.1]
  rfl

/-- Witness for C4 at the spec's own scenario input `"c0llect"`. -/
theorem C4_normalize_spec_witness :
    normalizePlateText (normalizePlateText "c0llect") = normalizePlateText "c0llect" ∧
    (normalizePlateText "c0llect").length ≤ 7 ∧
    ∀ c ∈ (normalizePlateText "c0llect").data, isPlateChar c = true :=
  C4_normalize_spec "c0llect"

/-- A record that has never been checked and has no history field. -/
def histNoneRec : PlateRecord :=
  { plateText := some "SWAG", state := some "ID", selectedVehicleType := none,
    selectedKindOfPlate := none, selectedPlateProgram := none,
    selectedPlateProgramID := none, selectedPlateProgramSubCategory := none,
    lastStatus := some "Unknown", lastCheckedUtc := none, history := none }

/-- Witness for C10 at a concrete record whose history field is absent. -/
theorem C10_markChecked_sync_witness :
    ∃ e : HistoryEntry,
      (markChecked histNoneRec "Available" none ⟨2026, 0, 1⟩).history =
        some (histNoneRec.history.getD [] ++ [e]) ∧
      ((markChecked histNoneRec "Available" none ⟨2026, 0, 1⟩).history.getD []) ≠ [] ∧
      ((markChecked histNoneRec "Available" none ⟨2026, 0, 1⟩).history.getD []).getLast? =
        some e ∧
      (markChecked histNoneRec "Available" none ⟨2026, 0, 1⟩).lastStatus = some e.status ∧
      (markChecked histNoneRec "Available" none ⟨2026, 0, 1⟩).lastCheckedUtc =
        some e.checkedUtc ∧
      (histNoneRec.history = none →
        (markChecked histNoneRec "Available" none ⟨2026, 0, 1⟩).history = some [e]) :=
  C10_markChecked_sync histNoneRec "Available" none ⟨2026, 0, 1⟩

end VanityMonitor
